import Mathlib

/-!
Verification of `src/computation/hf_extension.py` (Fisher-matrix estimation for a
HuggingFace pipeline): a shallow embedding of the module's three pieces —
`HessianCallback` (the sample accumulator), `add_callback` (forward interception)
and `fisher_matrix` (the driver) — together with theorems about them.

Tensors are embedded with exact rational entries plus a gradient-tracking flag;
exceptions are embedded as `Except` values whose error also carries the state the
mutation left behind (Python exceptions do not roll mutations back).
-/

/-- Exact scalar values standing for tensor entries. -/
abbrev Val := ℚ

/-- A tensor: its flat numeric contents plus the gradient-tracking flag. -/
structure Tensor where
  data : List Val
  requires_grad : Bool
deriving DecidableEq, Repr

/-- Embeds `torch.Tensor.detach`: same numeric values, gradient tracking severed. -/
def Tensor.detach (t : Tensor) : Tensor := { t with requires_grad := false }

/-- Raw model outputs (`ModelOutput`): a `logits` field plus arbitrary other
fields, which the core never inspects. -/
structure ModelOutput where
  logits : Tensor
  extra : List (String × Tensor)
deriving DecidableEq, Repr

/-- A model, reduced to what the core consumes from it: the flattened sizes of
its trainable parameters, in stable order. -/
structure Model where
  paramSizes : List Nat
deriving DecidableEq, Repr

/-- Python exception classes that can surface through this module. -/
inductive PyErr where
  | attributeError
  | zeroDivision
  | shapeMismatch
  | userError (code : Nat)
deriving DecidableEq, Repr

instance {e a : Type} [DecidableEq e] [DecidableEq a] : DecidableEq (Except e a) := fun x y =>
  match x, y with
  | .error u, .error v =>
    if h : u = v then .isTrue (by rw [h]) else .isFalse (by simp [h])
  | .error _, .ok _ => .isFalse (by simp)
  | .ok _, .error _ => .isFalse (by simp)
  | .ok u, .ok v =>
    if h : u = v then .isTrue (by rw [h]) else .isFalse (by simp [h])

/-- The external curvature formula `hess(model, logits)` (`fisher.py`), a black
box per the spec: one tensor per trainable parameter, or an exception. -/
abbrev HessFn := Model → Tensor → Except PyErr (List Tensor)

/-- Modelled from the spec: `ArchitectureTensor` lives in
`src/arithmetics/weights_wrapper.py`, which is not under `src/`; this is the
ParameterStructure / FlattenedMatrix collaborator of spec sections 3 and 4.2 — a
stable enumeration of parameter shapes, zero initialization, and conversion of a
per-parameter tensor list to one flat matrix (a shape mismatch raises and
propagates uncaught, spec section 7). -/
structure ArchitectureTensor where
  shapes : List Nat
deriving DecidableEq, Repr

def ArchitectureTensor.ofModel (m : Model) : ArchitectureTensor := ⟨m.paramSizes⟩

/-- Total number of scalar entries in the flattened matrix. -/
def ArchitectureTensor.total (a : ArchitectureTensor) : Nat := a.shapes.sum

def ArchitectureTensor.zeros (a : ArchitectureTensor) : List Val :=
  List.replicate a.total 0

def ArchitectureTensor.to_tensor (a : ArchitectureTensor) (ts : List Tensor) :
    Except PyErr (List Val) :=
  if ts.map (fun t => t.data.length) = a.shapes then .ok (ts.map Tensor.data).flatten
  else .error .shapeMismatch

/-- Modelled from the spec: FlattenedMatrix scalar division (spec sections 3 and
4.2) — element-wise division, failing with an ArithmeticError-class condition
(division by zero) when the divisor is zero, not converting silently to zero,
NaN or infinity. -/
def flatDiv (v : List Val) (n : Nat) : Except PyErr (List Val) :=
  if n = 0 then .error .zeroDivision else .ok (v.map (fun x => x / (n : Val)))

/-- Element-wise addition of flattened matrices. -/
def vecAdd (a b : List Val) : List Val := List.zipWith (· + ·) a b

/-- State of `HessianCallback`: the model, its parameter structure, the running
sum and the sample counter. -/
structure HessianCallback where
  model : Model
  arch : ArchitectureTensor
  hessian : List Val
  num_samples : Nat
deriving DecidableEq, Repr

/-- Embeds `HessianCallback.__init__`. -/
def HessianCallback.init (model : Model) : HessianCallback :=
  let arch := ArchitectureTensor.ofModel model
  { model := model, arch := arch, hessian := arch.zeros, num_samples := 0 }

/-- Embeds `HessianCallback.add_sample`: `num_samples` is incremented first, then
`to_tensor` converts (and may raise — the error carries the state the method
left behind, since the increment is not rolled back), then the flat matrix is
added into `hessian`. -/
def HessianCallback.add_sample (cb : HessianCallback)
    (sample_hessian : List Tensor) : Except (PyErr × HessianCallback) HessianCallback :=
  let cb1 : HessianCallback := { cb with num_samples := cb.num_samples + 1 }
  match cb1.arch.to_tensor sample_hessian with
  | .error e => .error (e, cb1)
  | .ok flat => .ok { cb1 with hessian := vecAdd cb1.hessian flat }

/-- Embeds `HessianCallback.get_hessian`: `hessian / num_samples`. -/
def HessianCallback.get_hessian (cb : HessianCallback) : Except PyErr (List Val) :=
  flatDiv cb.hessian cb.num_samples

/-- Observable events inside one `HessianCallback.__call__` invocation, in
order: the curvature estimate on a logits tensor, the fold of the estimate, the
detaching of the logits. -/
inductive Event where
  | estimate (logits : Tensor)
  | fold (sample : List Tensor)
  | detachLogits
deriving DecidableEq, Repr

/-- Embeds `HessianCallback.__call__`: `H = hess(model, outputs.logits)`, then
`add_sample(H)`, then `outputs.logits = outputs.logits.detach()`; paired with
the event trace of the invocation. -/
def HessianCallback.call (hessFn : HessFn) (cb : HessianCallback)
    (outputs : ModelOutput) :
    Except (PyErr × HessianCallback) (HessianCallback × ModelOutput) × List Event :=
  match hessFn cb.model outputs.logits with
  | .error e => (.error (e, cb), [.estimate outputs.logits])
  | .ok H =>
    match cb.add_sample H with
    | .error ec => (.error ec, [.estimate outputs.logits, .fold H])
    | .ok cb2 =>
      (.ok (cb2, { outputs with logits := outputs.logits.detach }),
       [.estimate outputs.logits, .fold H, .detachLogits])

/-- A sequence of `add_sample` calls, as the driver performs them, one per
processed dataset item. -/
def foldSamples (cb : HessianCallback) :
    List (List Tensor) → Except (PyErr × HessianCallback) HessianCallback
  | [] => .ok cb
  | s :: ss =>
    match cb.add_sample s with
    | .error ec => .error ec
    | .ok cb1 => foldSamples cb1 ss

/-- A Python callable reference as `add_callback` receives it: either a bound
method — which carries a `__self__` and a `__func__` — or a plain (unbound)
function, which has no `__func__` attribute. -/
inductive PyProc (S A O : Type) where
  | bound (self : S) (fn : S → A → O)
  | plain (fn : A → O)

/-- Attribute access `func.__func__`: present on a bound method, absent (an
AttributeError on access) on a plain function. -/
def PyProc.funcAttr {S A O : Type} : PyProc S A O → Option (S → A → O)
  | .bound _ f => some f
  | .plain _ => none

/-- Embeds `add_callback(func, callback)` and the `new_func` closure it returns:
`outputs = func.__func__(self, *args, **kwargs)`, then `callback(outputs)`
(which may mutate `outputs` and its own state, or raise), then the (possibly
mutated) `outputs` is returned.  The callback state is threaded explicitly; an
error carries the callback state left behind. -/
def add_callback {S A O T : Type} (func : PyProc S A O)
    (callback : O → T → Except (PyErr × T) (O × T)) :
    S → A → T → Except (PyErr × T) (O × T) :=
  fun self args st =>
    match func.funcAttr with
    | none => .error (.attributeError, st)
    | some f =>
      let outputs := f self args
      match callback outputs st with
      | .error et => .error et
      | .ok (outputs1, st1) => .ok (outputs1, st1)

/-- Repeatedly invoke a wrapped callable, once per argument tuple, in order,
collecting the returned outputs. -/
def runCalls {S A O T : Type} (g : S → A → T → Except (PyErr × T) (O × T))
    (self : S) : List A → T → Except (PyErr × T) (List O × T)
  | [], st => .ok ([], st)
  | a :: rest, st =>
    match g self a st with
    | .error et => .error et
    | .ok (o, st1) =>
      match runCalls g self rest st1 with
      | .error et => .error et
      | .ok (os, st2) => .ok (o :: os, st2)

/-- Reference behavior for a run of wrapped calls: for each argument tuple, the
original procedure is applied to exactly those arguments, and the callback is
applied exactly once to the produced outputs, sequentially in call order. -/
def chainCalls {S A O T : Type} (f : S → A → O)
    (callback : O → T → Except (PyErr × T) (O × T)) (self : S) :
    List A → T → Except (PyErr × T) (List O × T)
  | [], st => .ok ([], st)
  | a :: rest, st =>
    match callback (f self a) st with
    | .error et => .error et
    | .ok (o, st1) =>
      match chainCalls f callback self rest st1 with
      | .error et => .error et
      | .ok (os, st2) => .ok (o :: os, st2)

/-- The gradient mode a pipeline's inference-context selector yields
(`torch.no_grad` by default; `torch.enable_grad` after the driver's override). -/
inductive GradCtx where
  | noGrad
  | enableGrad
deriving DecidableEq, Repr

/-- One dataset item, as the numeric payload the model's forward consumes. -/
abbrev Item := List Val

/-- Contents of the pipeline's `_forward` slot: the original bound method, or
the `add_callback`-wrapped version whose closure captures a `HessianCallback`
(whose current state it carries). -/
inductive FwdSlot where
  | original
  | instrumented (cb : HessianCallback)
deriving DecidableEq, Repr

/-- The inference pipeline, reduced to the slots this module reads or replaces:
its model, the underlying forward implementation (the `__func__` of the original
`_forward`, taking the ambient gradient mode and one batch of items), the
`get_inference_context` selector, and the `_forward` slot. -/
structure Pipe where
  model : Model
  rawForward : Model → GradCtx → List Item → ModelOutput
  get_inference_context : List Unit → GradCtx
  fwdSlot : FwdSlot

/-- The `HessianCallback` object used as the `callback` argument of
`add_callback`: one `__call__` invocation, with the event trace dropped. -/
def HessianCallback.callFn (hessFn : HessFn) (o : ModelOutput)
    (cb : HessianCallback) :
    Except (PyErr × HessianCallback) (ModelOutput × HessianCallback) :=
  match (HessianCallback.call hessFn cb o).1 with
  | .error ec => .error ec
  | .ok (cb2, o2) => .ok (o2, cb2)

/-- Observable pipeline events: one forward invocation per processed batch. -/
inductive PipeEvent where
  | fwd (chunk : List Item)
deriving DecidableEq, Repr

/-- Modelled from the spec: the pipeline's per-batch forward path (spec
sections 4.4 and 6, external transformers orchestration) — consult the
gradient-mode selector, then invoke whatever the `_forward` slot holds on the
batch; the instrumented slot is exactly the `add_callback`-wrapped original. -/
def stepForward (hessFn : HessFn) (p : Pipe) (chunk : List Item) :
    Except (PyErr × Pipe) (ModelOutput × Pipe) × List PipeEvent :=
  let ctx := p.get_inference_context []
  (match p.fwdSlot with
   | .original => .ok (p.rawForward p.model ctx chunk, p)
   | .instrumented cb =>
     match add_callback (PyProc.bound p.model (fun m ci => p.rawForward m ci.1 ci.2))
         (HessianCallback.callFn hessFn) p.model (ctx, chunk) cb with
     | .error (e, cb1) => .error (e, { p with fwdSlot := .instrumented cb1 })
     | .ok (o, cb2) => .ok (o, { p with fwdSlot := .instrumented cb2 }),
   [.fwd chunk])

/-- Modelled from the spec: driving a list of batches through the pipeline in
order, stopping at (and propagating) the first error, collecting all produced
predictions and the forward events. -/
def Pipe.runChunks (hessFn : HessFn) :
    List (List Item) → Pipe →
      Except (PyErr × Pipe) (List ModelOutput × Pipe) × List PipeEvent
  | [], p => (.ok ([], p), [])
  | c :: cs, p =>
    match stepForward hessFn p c with
    | (.error ep, ev) => (.error ep, ev)
    | (.ok (o, p1), ev) =>
      match Pipe.runChunks hessFn cs p1 with
      | (.error ep, evs) => (.error ep, ev ++ evs)
      | (.ok (os, p2), evs) => (.ok (o :: os, p2), ev ++ evs)

/-- Modelled from the spec: splitting the dataset into batches of the given
size (fuel-driven so that batch size 1 — the only size the driver uses — yields
one singleton batch per item). -/
def chunksGo (n : Nat) : Nat → List Item → List (List Item)
  | 0, _ => []
  | _, [] => []
  | fuel + 1, x :: xs => (x :: xs.take (n - 1)) :: chunksGo n fuel (xs.drop (n - 1))

def chunks (n : Nat) (l : List Item) : List (List Item) := chunksGo n l.length l

/-- Modelled from the spec: `pipe(dataset, batch_size)` — the external
inference entry point (spec section 6): batch the dataset and run every batch
through the current `_forward` slot. -/
def Pipe.call (hessFn : HessFn) (p : Pipe) (dataset : List Item)
    (batch_size : Nat) :
    Except (PyErr × Pipe) (List ModelOutput × Pipe) × List PipeEvent :=
  Pipe.runChunks hessFn (chunks batch_size dataset) p

/-- The `HessianCallback` captured by the instrumented `_forward` slot (the
driver reads it back after the run; for an uninstrumented pipe this is a fresh
callback, a case the driver never hits). -/
def Pipe.cbState (p : Pipe) : HessianCallback :=
  match p.fwdSlot with
  | .instrumented cb => cb
  | .original => HessianCallback.init p.model

/-- Embeds `fisher_matrix(pipe, dataset)`: construct the callback, permanently
override `get_inference_context` with `lambda *_: torch.enable_grad`, replace
`_forward` by the wrapped version, drive the whole dataset at batch size 1, and
return `hess_callback.get_hessian()`.  The returned triple carries the result
(or the propagated exception), the pipe as the call leaves it, and the forward
events of the run. -/
def fisher_matrix (hessFn : HessFn) (pipe : Pipe) (dataset : List Item) :
    Except PyErr (List Val) × Pipe × List PipeEvent :=
  let model := pipe.model
  let hess_callback := HessianCallback.init model
  let pipe1 : Pipe := { pipe with
    get_inference_context := fun _ => GradCtx.enableGrad,
    fwdSlot := .instrumented hess_callback }
  match Pipe.call hessFn pipe1 dataset 1 with
  | (.error (e, p2), ev) => (.error e, p2, ev)
  | (.ok (_predicted, p2), ev) => ((Pipe.cbState p2).get_hessian, p2, ev)

/-- The element-wise mean of a list of flattened matrices, written from the
spec's words (spec section 8): sum from the zero matrix, divide by the count. -/
def specMean (total : Nat) (vs : List (List Val)) : List Val :=
  (vs.foldl vecAdd (List.replicate total 0)).map (fun x => x / (vs.length : Val))

/-- The pipe as it stands after the driver's two assignments: the selector
always yields `enable_grad`, and `_forward` is the wrapped version capturing a
fresh `HessianCallback`. -/
def instrumentedPipe (pipe : Pipe) : Pipe :=
  { pipe with
    get_inference_context := fun _ => GradCtx.enableGrad,
    fwdSlot := .instrumented (HessianCallback.init pipe.model) }

/-- The pipe a pipeline run leaves behind, whether it returned or raised. -/
def resPipe : Except (PyErr × Pipe) (List ModelOutput × Pipe) → Pipe
  | .error (_, p) => p
  | .ok (_, p) => p

/-- Flatten a per-parameter tensor list into its FlattenedMatrix contents. -/
def flattenSample (s : List Tensor) : List Val := (s.map Tensor.data).flatten

/-! Concrete fixtures used by the witness theorems: a one-parameter model,
small tensors, an always-succeeding estimator, a selective estimator that
raises on logits `[9]`, and a tiny pipeline. -/

def wModel : Model := ⟨[1]⟩

def wT1 : Tensor := ⟨[2], true⟩

def wT2 : Tensor := ⟨[4], true⟩

def wSample1 : List Tensor := [wT1]

def wSample2 : List Tensor := [wT2]

def wHessOk : HessFn := fun _ _ => .ok [wT1]

def wOut : ModelOutput := ⟨⟨[5], true⟩, [("hidden", ⟨[7], true⟩)]⟩

def wRawF : Model → GradCtx → List Item → ModelOutput :=
  fun _ _ chunk => ⟨⟨chunk.flatten, true⟩, []⟩

def wPipe : Pipe := ⟨wModel, wRawF, fun _ => GradCtx.noGrad, FwdSlot.original⟩

def wHessSel : HessFn := fun _ t =>
  if t.data = [9] then .error (.userError 7) else .ok [⟨t.data, true⟩]

def wEstOf : Item → List Tensor := fun i => [⟨i, true⟩]

def wPipeRun : Pipe :=
  { model := wModel, rawForward := wRawF,
    get_inference_context := fun _ => GradCtx.enableGrad,
    fwdSlot := FwdSlot.instrumented ⟨wModel, ⟨[1]⟩, [0], 1⟩ }

def wPipeRun2 : Pipe :=
  { wPipeRun with fwdSlot := FwdSlot.instrumented ⟨wModel, ⟨[1]⟩, [0], 2⟩ }

/-! ## Helper lemmas -/

theorem vecAdd_right_comm (h a b : List Val) :
    vecAdd (vecAdd h a) b = vecAdd (vecAdd h b) a := by
  induction h generalizing a b with
  | nil => cases a <;> cases b <;> simp [vecAdd]
  | cons x h ih =>
    cases a with
    | nil => cases b <;> simp [vecAdd]
    | cons y a =>
      cases b with
      | nil => simp [vecAdd]
      | cons z b =>
        simp only [vecAdd, List.zipWith, List.cons.injEq]
        exact ⟨by ring, ih a b⟩

theorem foldl_vecAdd_perm {l1 l2 : List (List Val)} (hp : l1.Perm l2)
    (base : List Val) : l1.foldl vecAdd base = l2.foldl vecAdd base := by
  induction hp generalizing base with
  | nil => rfl
  | cons x _ ih => simp only [List.foldl_cons]; exact ih _
  | swap x y l => simp only [List.foldl_cons, vecAdd_right_comm]
  | trans _ _ ih1 ih2 => exact (ih1 base).trans (ih2 base)

theorem to_tensor_ok (a : ArchitectureTensor) (s : List Tensor)
    (hs : s.map (fun t => t.data.length) = a.shapes) :
    a.to_tensor s = .ok (flattenSample s) := by
  simp [ArchitectureTensor.to_tensor, hs, flattenSample]

theorem add_sample_ok (cb : HessianCallback) (s : List Tensor)
    (hs : s.map (fun t => t.data.length) = cb.arch.shapes) :
    cb.add_sample s =
      .ok { cb with num_samples := cb.num_samples + 1,
                    hessian := vecAdd cb.hessian (flattenSample s) } := by
  simp [HessianCallback.add_sample, to_tensor_ok _ _ hs]

theorem foldSamples_ok (cb : HessianCallback) (samples : List (List Tensor))
    (hs : ∀ s ∈ samples, s.map (fun t => t.data.length) = cb.arch.shapes) :
    foldSamples cb samples =
      .ok { cb with
        num_samples := cb.num_samples + samples.length,
        hessian := (samples.map flattenSample).foldl vecAdd cb.hessian } := by
  induction samples generalizing cb with
  | nil => simp [foldSamples]
  | cons s rest ih =>
    have hhead := hs s (by simp)
    have htail : ∀ u ∈ rest, u.map (fun t => t.data.length) = cb.arch.shapes :=
      fun u hu => hs u (by simp [hu])
    simp only [foldSamples, add_sample_ok cb s hhead]
    rw [ih _ (by simpa using htail)]
    simp only [List.map_cons, List.foldl_cons, List.length_cons]
    have hnum : cb.num_samples + 1 + rest.length = cb.num_samples + (rest.length + 1) := by
      omega
    simp [hnum]

theorem init_hessian (model : Model) :
    (HessianCallback.init model).hessian = List.replicate model.paramSizes.sum 0 := rfl

theorem init_arch_shapes (model : Model) :
    (HessianCallback.init model).arch.shapes = model.paramSizes := rfl

/-! ## Claims -/

/-- C1: if the accumulator's `num_samples` is 0 (in particular after a run over
an empty dataset, where `fold` was never called), `get_hessian` — and hence the
driver — surfaces an ArithmeticError-class condition (division by zero) rather
than silently producing zero, NaN or infinity. -/
theorem getHessian_zero_samples_raises :
    (∀ cb : HessianCallback, cb.num_samples = 0 →
        cb.get_hessian = .error PyErr.zeroDivision)
  ∧ (∀ (hessFn : HessFn) (pipe : Pipe),
        (fisher_matrix hessFn pipe []).1 = .error PyErr.zeroDivision) := by
  constructor
  · intro cb h
    simp [HessianCallback.get_hessian, flatDiv, h]
  · intro hessFn pipe
    rfl

theorem getHessian_zero_samples_raises_witness :
    (HessianCallback.init ⟨[2]⟩).num_samples = 0
  ∧ (HessianCallback.init ⟨[2]⟩).get_hessian = .error PyErr.zeroDivision :=
  ⟨rfl, getHessian_zero_samples_raises.1 (HessianCallback.init ⟨[2]⟩) rfl⟩

theorem init_num_samples (model : Model) :
    (HessianCallback.init model).num_samples = 0 := rfl

/-- C7: a fresh accumulator has `num_samples = 0` and a zero running sum
matching the model's parameter structure; every successful `add_sample` call
increments `num_samples` by exactly 1 and adds the flattened per-parameter
tensors element-wise into the running sum, so that after a sequence of folds
`num_samples` equals the number of fold calls made. -/
theorem accumulator_invariants :
    (∀ model : Model, (HessianCallback.init model).num_samples = 0
      ∧ (HessianCallback.init model).hessian = List.replicate model.paramSizes.sum 0)
  ∧ (∀ (cb : HessianCallback) (s : List Tensor) (cb' : HessianCallback),
      cb.add_sample s = .ok cb' →
        cb'.num_samples = cb.num_samples + 1
      ∧ cb'.hessian = vecAdd cb.hessian (flattenSample s))
  ∧ (∀ (model : Model) (samples : List (List Tensor)) (cb : HessianCallback),
      (∀ s ∈ samples, s.map (fun t => t.data.length) = model.paramSizes) →
      foldSamples (HessianCallback.init model) samples = .ok cb →
      cb.num_samples = samples.length) := by
  refine ⟨fun model => ⟨rfl, rfl⟩, ?_, ?_⟩
  · intro cb s cb' h
    by_cases hc : s.map (fun t => t.data.length) = cb.arch.shapes
    · rw [add_sample_ok cb s hc] at h
      cases h
      exact ⟨rfl, rfl⟩
    · simp [HessianCallback.add_sample, ArchitectureTensor.to_tensor, hc] at h
  · intro model samples cb hs h
    rw [foldSamples_ok _ _ (by simpa [init_arch_shapes] using hs)] at h
    cases h
    simp [init_num_samples]

theorem accumulator_invariants_witness :
    ((HessianCallback.init wModel).num_samples = 0
      ∧ (HessianCallback.init wModel).hessian = List.replicate wModel.paramSizes.sum 0)
  ∧ ((⟨wModel, ⟨[1]⟩, [2], 1⟩ : HessianCallback).num_samples
        = (HessianCallback.init wModel).num_samples + 1
      ∧ (⟨wModel, ⟨[1]⟩, [2], 1⟩ : HessianCallback).hessian
        = vecAdd (HessianCallback.init wModel).hessian (flattenSample wSample1))
  ∧ (⟨wModel, ⟨[1]⟩, [2], 1⟩ : HessianCallback).num_samples = [wSample1].length :=
  ⟨accumulator_invariants.1 wModel,
   accumulator_invariants.2.1 (HessianCallback.init wModel) wSample1
     ⟨wModel, ⟨[1]⟩, [2], 1⟩ (by
       simp [HessianCallback.add_sample, ArchitectureTensor.to_tensor,
             HessianCallback.init, ArchitectureTensor.ofModel, ArchitectureTensor.zeros,
             ArchitectureTensor.total, vecAdd, wModel, wSample1, wT1]),
   accumulator_invariants.2.2 wModel [wSample1] ⟨wModel, ⟨[1]⟩, [2], 1⟩
     (by decide) (by
       simp [foldSamples, HessianCallback.add_sample, ArchitectureTensor.to_tensor,
             HessianCallback.init, ArchitectureTensor.ofModel, ArchitectureTensor.zeros,
             ArchitectureTensor.total, vecAdd, wModel, wSample1, wT1])⟩

/-- C4: on a successful callback invocation, only the `logits` field of the
outputs object changes — it is replaced by its gradient-detached version with
numerically identical values — and every other field is left unchanged, so the
wrapped procedure's caller sees the unwrapped return value up to detached
logits. -/
theorem callback_mutates_only_logits :
    ∀ (hessFn : HessFn) (cb cb' : HessianCallback) (o o' : ModelOutput),
    (HessianCallback.call hessFn cb o).1 = .ok (cb', o') →
      o' = { o with logits := o.logits.detach }
    ∧ o'.logits.data = o.logits.data
    ∧ o'.logits.requires_grad = false
    ∧ o'.extra = o.extra := by
  intro hessFn cb cb' o o' h
  cases hh : hessFn cb.model o.logits with
  | error e => simp [HessianCallback.call, hh] at h
  | ok H =>
    cases ha : cb.add_sample H with
    | error ec => simp [HessianCallback.call, hh, ha] at h
    | ok cb2 =>
      simp only [HessianCallback.call, hh, ha, Except.ok.injEq, Prod.mk.injEq] at h
      obtain ⟨-, ho⟩ := h
      subst ho
      exact ⟨rfl, rfl, rfl, rfl⟩

theorem callback_mutates_only_logits_witness :
    (HessianCallback.call wHessOk (HessianCallback.init wModel) wOut).1
      = .ok (⟨wModel, ⟨[1]⟩, [2], 1⟩, ⟨⟨[5], false⟩, [("hidden", ⟨[7], true⟩)]⟩)
  ∧ ((⟨⟨[5], false⟩, [("hidden", ⟨[7], true⟩)]⟩ : ModelOutput)
      = { wOut with logits := wOut.logits.detach }
    ∧ (⟨⟨[5], false⟩, [("hidden", ⟨[7], true⟩)]⟩ : ModelOutput).logits.data = wOut.logits.data
    ∧ (⟨⟨[5], false⟩, [("hidden", ⟨[7], true⟩)]⟩ : ModelOutput).logits.requires_grad = false
    ∧ (⟨⟨[5], false⟩, [("hidden", ⟨[7], true⟩)]⟩ : ModelOutput).extra = wOut.extra) :=
  ⟨by
     simp [HessianCallback.call, HessianCallback.add_sample, ArchitectureTensor.to_tensor,
           HessianCallback.init, ArchitectureTensor.ofModel, ArchitectureTensor.zeros,
           ArchitectureTensor.total, vecAdd, Tensor.detach, wModel, wHessOk, wOut, wT1],
   callback_mutates_only_logits wHessOk (HessianCallback.init wModel)
     ⟨wModel, ⟨[1]⟩, [2], 1⟩ wOut ⟨⟨[5], false⟩, [("hidden", ⟨[7], true⟩)]⟩ (by
       simp [HessianCallback.call, HessianCallback.add_sample, ArchitectureTensor.to_tensor,
             HessianCallback.init, ArchitectureTensor.ofModel, ArchitectureTensor.zeros,
             ArchitectureTensor.total, vecAdd, Tensor.detach, wModel, wHessOk, wOut, wT1])⟩

/-- C8: within each callback invocation the curvature estimator is applied to
the original logits tensor first, and the detach event occurs only after the
estimate has been folded: the estimator is never called on anything but the
incoming (undetached) logits, and a detach in the trace forces the full
estimate–fold–detach order. -/
theorem estimate_before_detach :
    ∀ (hessFn : HessFn) (cb : HessianCallback) (o : ModelOutput),
    ((HessianCallback.call hessFn cb o).2.head? = some (Event.estimate o.logits))
  ∧ (∀ t : Tensor, Event.estimate t ∈ (HessianCallback.call hessFn cb o).2 → t = o.logits)
  ∧ (Event.detachLogits ∈ (HessianCallback.call hessFn cb o).2 →
      ∃ H cb2, hessFn cb.model o.logits = .ok H ∧ cb.add_sample H = .ok cb2
        ∧ (HessianCallback.call hessFn cb o).2
            = [Event.estimate o.logits, Event.fold H, Event.detachLogits]) := by
  intro hessFn cb o
  cases hh : hessFn cb.model o.logits with
  | error e =>
    refine ⟨?_, ?_, ?_⟩
    · simp [HessianCallback.call, hh]
    · intro t ht
      simp [HessianCallback.call, hh] at ht
      simp [ht]
    · intro hd
      simp [HessianCallback.call, hh] at hd
  | ok H =>
    cases ha : cb.add_sample H with
    | error ec =>
      refine ⟨?_, ?_, ?_⟩
      · simp [HessianCallback.call, hh, ha]
      · intro t ht
        simp [HessianCallback.call, hh, ha] at ht
        simp [ht]
      · intro hd
        simp [HessianCallback.call, hh, ha] at hd
    | ok cb2 =>
      refine ⟨?_, ?_, ?_⟩
      · simp [HessianCallback.call, hh, ha]
      · intro t ht
        simp [HessianCallback.call, hh, ha] at ht
        simp [ht]
      · intro _
        refine ⟨H, cb2, rfl, ha, ?_⟩
        simp [HessianCallback.call, hh, ha]

theorem estimate_before_detach_witness :
    Event.detachLogits ∈ (HessianCallback.call wHessOk (HessianCallback.init wModel) wOut).2
  ∧ ∃ H cb2, wHessOk (HessianCallback.init wModel).model wOut.logits = .ok H
      ∧ (HessianCallback.init wModel).add_sample H = .ok cb2
      ∧ (HessianCallback.call wHessOk (HessianCallback.init wModel) wOut).2
          = [Event.estimate wOut.logits, Event.fold H, Event.detachLogits] :=
  ⟨by decide,
   (estimate_before_detach wHessOk (HessianCallback.init wModel) wOut).2.2 (by decide)⟩

/-- C2: for every non-empty sequence of valid per-parameter tensor lists folded
in via `add_sample`, `get_hessian` returns the element-wise mean of all folded
tensors, and the result is invariant under any permutation of the fold order. -/
theorem result_is_mean_perm_invariant :
    ∀ (model : Model) (samples samples' : List (List Tensor)),
    samples.Perm samples' → samples ≠ [] →
    (∀ s ∈ samples, s.map (fun t => t.data.length) = model.paramSizes) →
    ∃ cb cb',
      foldSamples (HessianCallback.init model) samples = .ok cb
    ∧ foldSamples (HessianCallback.init model) samples' = .ok cb'
    ∧ cb.get_hessian = .ok (specMean model.paramSizes.sum (samples.map flattenSample))
    ∧ cb'.get_hessian = cb.get_hessian := by
  intro model samples samples' hperm hne hs
  have hs' : ∀ s ∈ samples', s.map (fun t => t.data.length) = model.paramSizes :=
    fun s h => hs s (hperm.mem_iff.mpr h)
  have hlen : samples.length ≠ 0 := fun h => hne (List.length_eq_zero.mp h)
  have hlen' : samples'.length = samples.length := hperm.length_eq.symm
  have hfold := foldl_vecAdd_perm (hperm.map flattenSample)
    (List.replicate model.paramSizes.sum 0)
  refine ⟨_, _, foldSamples_ok _ _ (by simpa [init_arch_shapes] using hs),
      foldSamples_ok _ _ (by simpa [init_arch_shapes] using hs'), ?_, ?_⟩
  · simp [HessianCallback.get_hessian, flatDiv, init_hessian, init_num_samples,
      specMean, hlen]
  · simp [HessianCallback.get_hessian, flatDiv, init_hessian, init_num_samples,
      hlen, hlen', hfold]

theorem result_is_mean_perm_invariant_witness :
    ([wSample1, wSample2] : List (List Tensor)).Perm [wSample2, wSample1]
  ∧ ([wSample1, wSample2] : List (List Tensor)) ≠ []
  ∧ (∀ s ∈ ([wSample1, wSample2] : List (List Tensor)),
      s.map (fun t => t.data.length) = wModel.paramSizes)
  ∧ (∃ cb cb',
      foldSamples (HessianCallback.init wModel) [wSample1, wSample2] = .ok cb
    ∧ foldSamples (HessianCallback.init wModel) [wSample2, wSample1] = .ok cb'
    ∧ cb.get_hessian
        = .ok (specMean wModel.paramSizes.sum ([wSample1, wSample2].map flattenSample))
    ∧ cb'.get_hessian = cb.get_hessian) :=
  ⟨List.Perm.swap wSample2 wSample1 [], by decide, by decide,
   result_is_mean_perm_invariant wModel [wSample1, wSample2] [wSample2, wSample1]
     (List.Perm.swap wSample2 wSample1 []) (by decide) (by decide)⟩

theorem add_callback_bound_eq {S A O T : Type} (s0 : S) (f : S → A → O)
    (callback : O → T → Except (PyErr × T) (O × T)) (self : S) (args : A) (st : T) :
    add_callback (PyProc.bound s0 f) callback self args st = callback (f self args) st := by
  show (match callback (f self args) st with
        | .error et => .error et
        | .ok (o1, st1) => .ok (o1, st1)) = callback (f self args) st
  cases callback (f self args) st with
  | error et => rfl
  | ok p => cases p; rfl

theorem add_callback_plain_raises {S A O T : Type} (g : A → O)
    (callback : O → T → Except (PyErr × T) (O × T)) (self : S) (args : A) (st : T) :
    add_callback (PyProc.plain g) callback self args st
      = .error (PyErr.attributeError, st) := rfl

theorem runCalls_add_callback_chain {S A O T : Type} (s0 : S) (f : S → A → O)
    (callback : O → T → Except (PyErr × T) (O × T)) (self : S)
    (xs : List A) (st : T) :
    runCalls (add_callback (PyProc.bound s0 f) callback) self xs st
      = chainCalls f callback self xs st := by
  induction xs generalizing st with
  | nil => rfl
  | cons a rest ih =>
    simp only [runCalls, chainCalls, add_callback_bound_eq]
    cases callback (f self a) st with
    | error et => rfl
    | ok p =>
      cases p with
      | mk o st1 => simp only [ih]

theorem runCalls_counting {S A O : Type} (s0 : S) (f : S → A → O) (self : S)
    (xs : List A) (k : Nat) :
    runCalls (add_callback (PyProc.bound s0 f)
        (fun o n => .ok (o, n + 1))) self xs k
      = .ok (xs.map (f self), k + xs.length) := by
  induction xs generalizing k with
  | nil => rfl
  | cons a rest ih =>
    simp only [runCalls, add_callback_bound_eq, ih, List.map_cons, List.length_cons]
    congr 2
    omega

/-- C3: the callable produced by `add_callback` on a bound method calls the
original with the same arguments, applies the callback exactly once to the
produced outputs, and returns the (possibly mutated) outputs; a run of N calls
applies the callback exactly N times, once per call, in call order (the
counting callback ends at exactly N). -/
theorem wrapped_calls_callback_once_per_call :
    (∀ (S A O T : Type) (s0 : S) (f : S → A → O)
        (callback : O → T → Except (PyErr × T) (O × T)) (self : S) (args : A) (st : T),
        add_callback (PyProc.bound s0 f) callback self args st
          = callback (f self args) st)
  ∧ (∀ (S A O T : Type) (s0 : S) (f : S → A → O)
        (callback : O → T → Except (PyErr × T) (O × T)) (self : S)
        (xs : List A) (st : T),
        runCalls (add_callback (PyProc.bound s0 f) callback) self xs st
          = chainCalls f callback self xs st)
  ∧ (∀ (S A O : Type) (s0 : S) (f : S → A → O) (self : S) (xs : List A),
        runCalls (add_callback (PyProc.bound s0 f)
            (fun o n => .ok (o, n + 1))) self xs 0
          = .ok (xs.map (f self), xs.length)) :=
  ⟨fun _ _ _ _ => add_callback_bound_eq,
   fun _ _ _ _ => runCalls_add_callback_chain,
   fun _ _ _ s0 f self xs => by simpa using runCalls_counting s0 f self xs 0⟩

/-- C5 counterexample: `add_callback` applied to an unbound (plain) procedure
reference produces a wrapper that raises AttributeError (the access
`func.__func__` fails) instead of calling the procedure — the claim that a
bound *or unbound* reference is accepted is false on the code. -/
theorem add_callback_unbound_counterexample :
    add_callback (PyProc.plain (fun (n : Nat) => n + 1))
      (fun (o : Nat) (t : Nat) => .ok (o, t)) () 5 0
      = .error (PyErr.attributeError, 0) := rfl

/-- C5 amended: `add_callback` requires a bound method (an object exposing
`__func__`); for a bound method the wrapper works for any argument shape —
generically in the self, argument, output and callback-state types — while a
plain (unbound) function makes the wrapper raise AttributeError. -/
theorem add_callback_requires_bound_method :
    (∀ (S A O T : Type) (s0 : S) (f : S → A → O)
        (callback : O → T → Except (PyErr × T) (O × T)) (self : S) (args : A) (st : T),
        add_callback (PyProc.bound s0 f) callback self args st
          = callback (f self args) st)
  ∧ (∀ (S A O T : Type) (g : A → O)
        (callback : O → T → Except (PyErr × T) (O × T)) (self : S) (args : A) (st : T),
        add_callback (PyProc.plain g) callback self args st
          = .error (PyErr.attributeError, st)) :=
  ⟨fun _ _ _ _ => add_callback_bound_eq, fun _ _ _ _ => add_callback_plain_raises⟩

theorem fisher_matrix_eq (hessFn : HessFn) (pipe : Pipe) (ds : List Item) :
    fisher_matrix hessFn pipe ds =
      (match Pipe.call hessFn (instrumentedPipe pipe) ds 1 with
       | (.error (e, p2), ev) => (.error e, p2, ev)
       | (.ok (_, p2), ev) => ((Pipe.cbState p2).get_hessian, p2, ev)) := rfl

theorem chunks_one (l : List Item) : chunks 1 l = l.map (fun i => [i]) := by
  show chunksGo 1 l.length l = l.map (fun i => [i])
  induction l with
  | nil => rfl
  | cons x xs ih => simpa [chunksGo] using ih

theorem stepForward_events (hessFn : HessFn) (p : Pipe) (chunk : List Item) :
    (stepForward hessFn p chunk).2 = [PipeEvent.fwd chunk] := rfl

theorem callFn_ok (hessFn : HessFn) (cb : HessianCallback) (o : ModelOutput)
    (H : List Tensor) (hh : hessFn cb.model o.logits = .ok H)
    (hs : H.map (fun t => t.data.length) = cb.arch.shapes) :
    HessianCallback.callFn hessFn o cb =
      .ok ({ o with logits := o.logits.detach },
           { cb with num_samples := cb.num_samples + 1,
                     hessian := vecAdd cb.hessian (flattenSample H) }) := by
  simp [HessianCallback.callFn, HessianCallback.call, hh, add_sample_ok cb H hs]

theorem callFn_hess_error (hessFn : HessFn) (cb : HessianCallback)
    (o : ModelOutput) (e : PyErr) (hh : hessFn cb.model o.logits = .error e) :
    HessianCallback.callFn hessFn o cb = .error (e, cb) := by
  simp [HessianCallback.callFn, HessianCallback.call, hh]

theorem add_sample_num_of_ok (cb : HessianCallback) (s : List Tensor)
    (cb' : HessianCallback) (h : cb.add_sample s = .ok cb') :
    cb'.num_samples = cb.num_samples + 1 := by
  by_cases hc : s.map (fun t => t.data.length) = cb.arch.shapes
  · rw [add_sample_ok cb s hc] at h
    cases h
    rfl
  · simp [HessianCallback.add_sample, ArchitectureTensor.to_tensor, hc] at h

theorem callFn_ok_increments (hessFn : HessFn) (o o2 : ModelOutput)
    (cb cb2 : HessianCallback)
    (h : HessianCallback.callFn hessFn o cb = .ok (o2, cb2)) :
    cb2.num_samples = cb.num_samples + 1 := by
  cases hh : hessFn cb.model o.logits with
  | error e => simp [HessianCallback.callFn, HessianCallback.call, hh] at h
  | ok H =>
    cases ha : cb.add_sample H with
    | error ec => simp [HessianCallback.callFn, HessianCallback.call, hh, ha] at h
    | ok cbx =>
      simp only [HessianCallback.callFn, HessianCallback.call, hh, ha,
        Except.ok.injEq, Prod.mk.injEq] at h
      obtain ⟨-, hcb⟩ := h
      subst hcb
      exact add_sample_num_of_ok cb H cbx ha

theorem stepForward_instr_ok (hessFn : HessFn) (p : Pipe) (cb : HessianCallback)
    (chunk : List Item) (o2 : ModelOutput) (cb2 : HessianCallback)
    (hslot : p.fwdSlot = .instrumented cb)
    (hcf : HessianCallback.callFn hessFn
        (p.rawForward p.model (p.get_inference_context []) chunk) cb = .ok (o2, cb2)) :
    stepForward hessFn p chunk =
      (.ok (o2, { p with fwdSlot := .instrumented cb2 }), [PipeEvent.fwd chunk]) := by
  simp [stepForward, hslot, add_callback_bound_eq, hcf]

theorem stepForward_instr_err (hessFn : HessFn) (p : Pipe) (cb : HessianCallback)
    (chunk : List Item) (e : PyErr) (cb1 : HessianCallback)
    (hslot : p.fwdSlot = .instrumented cb)
    (hcf : HessianCallback.callFn hessFn
        (p.rawForward p.model (p.get_inference_context []) chunk) cb = .error (e, cb1)) :
    stepForward hessFn p chunk =
      (.error (e, { p with fwdSlot := .instrumented cb1 }), [PipeEvent.fwd chunk]) := by
  simp [stepForward, hslot, add_callback_bound_eq, hcf]

theorem runChunks_instr_ok (hessFn : HessFn) (items : List Item) :
    ∀ (p : Pipe) (cb : HessianCallback) (estOf : Item → List Tensor),
    p.fwdSlot = .instrumented cb →
    (∀ i ∈ items,
        hessFn cb.model (p.rawForward p.model (p.get_inference_context []) [i]).logits
            = .ok (estOf i)
      ∧ (estOf i).map (fun t => t.data.length) = cb.arch.shapes) →
    Pipe.runChunks hessFn (items.map (fun i => [i])) p =
      (.ok (items.map (fun i =>
          { p.rawForward p.model (p.get_inference_context []) [i] with
              logits := (p.rawForward p.model (p.get_inference_context []) [i]).logits.detach }),
        { p with fwdSlot := FwdSlot.instrumented
                      ({ cb with
                          num_samples := cb.num_samples + items.length,
                          hessian := (items.map (fun i => flattenSample (estOf i))).foldl
                                        vecAdd cb.hessian }) }),
       items.map (fun i => PipeEvent.fwd [i])) := by
  induction items with
  | nil =>
    intro p cb estOf hslot hok
    simp [Pipe.runChunks, ← hslot]
  | cons i rest ih =>
    intro p cb estOf hslot hok
    have hi := hok i (by simp)
    have hcf := callFn_ok hessFn cb _ (estOf i) hi.1 hi.2
    have hstep := stepForward_instr_ok hessFn p cb [i] _ _ hslot hcf
    have hrest := ih { p with fwdSlot := FwdSlot.instrumented
                                            ({ cb with
                                                num_samples := cb.num_samples + 1,
                                                hessian := vecAdd cb.hessian
                                                              (flattenSample (estOf i)) }) }
      { cb with num_samples := cb.num_samples + 1,
                hessian := vecAdd cb.hessian (flattenSample (estOf i)) }
      estOf rfl (by
        intro j hj
        simpa using hok j (by simp [hj]))
    simp only [List.map_cons, Pipe.runChunks, hstep, hrest]
    have hnum : cb.num_samples + 1 + rest.length = cb.num_samples + (rest.length + 1) := by
      omega
    simp [hnum]

theorem runChunks_instr_err (hessFn : HessFn) (pre : List Item) :
    ∀ (p : Pipe) (cb : HessianCallback) (bad : Item) (rest : List Item)
      (estOf : Item → List Tensor) (e : PyErr),
    p.fwdSlot = .instrumented cb →
    (∀ i ∈ pre,
        hessFn cb.model (p.rawForward p.model (p.get_inference_context []) [i]).logits
            = .ok (estOf i)
      ∧ (estOf i).map (fun t => t.data.length) = cb.arch.shapes) →
    hessFn cb.model (p.rawForward p.model (p.get_inference_context []) [bad]).logits
        = .error e →
    (Pipe.runChunks hessFn ((pre ++ bad :: rest).map (fun i => [i])) p).1 =
      .error (e, { p with fwdSlot := FwdSlot.instrumented
                            ({ cb with
                                num_samples := cb.num_samples + pre.length,
                                hessian := (pre.map (fun i => flattenSample (estOf i))).foldl
                                              vecAdd cb.hessian }) }) := by
  induction pre with
  | nil =>
    intro p cb bad rest estOf e hslot hok hbad
    have hcf := callFn_hess_error hessFn cb _ e hbad
    have hstep := stepForward_instr_err hessFn p cb [bad] e cb hslot hcf
    simp [Pipe.runChunks, hstep]
  | cons i pre' ih =>
    intro p cb bad rest estOf e hslot hok hbad
    have hi := hok i (by simp)
    have hcf := callFn_ok hessFn cb _ (estOf i) hi.1 hi.2
    have hstep := stepForward_instr_ok hessFn p cb [i] _ _ hslot hcf
    have hrest := ih { p with fwdSlot := FwdSlot.instrumented
                                            ({ cb with
                                                num_samples := cb.num_samples + 1,
                                                hessian := vecAdd cb.hessian
                                                              (flattenSample (estOf i)) }) }
      { cb with num_samples := cb.num_samples + 1,
                hessian := vecAdd cb.hessian (flattenSample (estOf i)) }
      bad rest estOf e rfl (by
        intro j hj
        simpa using hok j (by simp [hj])) (by simpa using hbad)
    simp only [List.cons_append, List.map_cons, Pipe.runChunks, hstep]
    rcases hrc : Pipe.runChunks hessFn ((pre' ++ bad :: rest).map (fun i => [i]))
        { p with fwdSlot := FwdSlot.instrumented
                              ({ cb with
                                  num_samples := cb.num_samples + 1,
                                  hessian := vecAdd cb.hessian (flattenSample (estOf i)) }) }
      with ⟨r2, evs⟩
    rw [hrc] at hrest
    cases r2 with
    | error ep =>
      cases hrest
      have hnum : cb.num_samples + 1 + pre'.length = cb.num_samples + (pre'.length + 1) := by
        omega
      simp [hnum]
    | ok pr => simp at hrest

theorem runChunks_ok_events (hessFn : HessFn) (cs : List (List Item)) :
    ∀ (p : Pipe) (os : List ModelOutput) (p2 : Pipe) (ev : List PipeEvent),
    Pipe.runChunks hessFn cs p = (.ok (os, p2), ev) →
    ev = cs.map PipeEvent.fwd := by
  induction cs with
  | nil =>
    intro p os p2 ev h
    simp only [Pipe.runChunks, Prod.mk.injEq] at h
    exact h.2.symm
  | cons c cs' ih =>
    intro p os p2 ev h
    rcases hsf : stepForward hessFn p c with ⟨r, ev1⟩
    have hev1 : ev1 = [PipeEvent.fwd c] := by
      have hst := stepForward_events hessFn p c
      rw [hsf] at hst
      exact hst
    cases r with
    | error ep =>
      simp only [Pipe.runChunks, hsf] at h
      simp at h
    | ok pr =>
      rcases pr with ⟨o, p1⟩
      rcases hrc : Pipe.runChunks hessFn cs' p1 with ⟨r2, evs⟩
      cases r2 with
      | error ep2 =>
        simp only [Pipe.runChunks, hsf, hrc] at h
        simp at h
      | ok pr2 =>
        rcases pr2 with ⟨os2, p3⟩
        simp only [Pipe.runChunks, hsf, hrc, Prod.mk.injEq] at h
        have hevs : evs = cs'.map PipeEvent.fwd := ih p1 os2 p3 evs hrc
        rw [← h.2, hev1, hevs]
        simp

theorem runChunks_wiring (hessFn : HessFn) (cs : List (List Item)) :
    ∀ (p : Pipe) (cb : HessianCallback), p.fwdSlot = .instrumented cb →
      (resPipe (Pipe.runChunks hessFn cs p).1).get_inference_context
          = p.get_inference_context
    ∧ (resPipe (Pipe.runChunks hessFn cs p).1).model = p.model
    ∧ (resPipe (Pipe.runChunks hessFn cs p).1).rawForward = p.rawForward
    ∧ ∃ cb2, (resPipe (Pipe.runChunks hessFn cs p).1).fwdSlot = FwdSlot.instrumented cb2 := by
  induction cs with
  | nil =>
    intro p cb hslot
    exact ⟨rfl, rfl, rfl, cb, hslot⟩
  | cons c cs' ih =>
    intro p cb hslot
    cases hcf : HessianCallback.callFn hessFn
        (p.rawForward p.model (p.get_inference_context []) c) cb with
    | error ec =>
      rcases ec with ⟨e, cb1⟩
      have hstep := stepForward_instr_err hessFn p cb c e cb1 hslot hcf
      simp [Pipe.runChunks, hstep, resPipe]
    | ok pr =>
      rcases pr with ⟨o, cb2⟩
      have hstep := stepForward_instr_ok hessFn p cb c o cb2 hslot hcf
      have hrec := ih { p with fwdSlot := FwdSlot.instrumented cb2 } cb2 rfl
      rcases hrc : Pipe.runChunks hessFn cs'
          { p with fwdSlot := FwdSlot.instrumented cb2 } with ⟨r2, evs⟩
      rw [hrc] at hrec
      cases r2 with
      | error ep2 =>
        simp only [Pipe.runChunks, hstep, hrc]
        simpa [resPipe] using hrec
      | ok pr2 =>
        simp only [Pipe.runChunks, hstep, hrc]
        simpa [resPipe] using hrec

/-- C6: if the curvature estimator raises on some dataset item, that same error
propagates out of the driver, no result is returned, and the accumulator state
reflects exactly the folds of the items processed before the failing one. -/
theorem estimator_error_aborts_run :
    ∀ (hessFn : HessFn) (pipe : Pipe) (pre rest : List Item) (bad : Item)
      (estOf : Item → List Tensor) (e : PyErr),
    (∀ i ∈ pre,
        hessFn pipe.model (pipe.rawForward pipe.model GradCtx.enableGrad [i]).logits
            = .ok (estOf i)
      ∧ (estOf i).map (fun t => t.data.length) = pipe.model.paramSizes) →
    hessFn pipe.model (pipe.rawForward pipe.model GradCtx.enableGrad [bad]).logits
        = .error e →
      (fisher_matrix hessFn pipe (pre ++ bad :: rest)).1 = .error e
    ∧ (Pipe.cbState (fisher_matrix hessFn pipe (pre ++ bad :: rest)).2.1).num_samples
        = pre.length
    ∧ (Pipe.cbState (fisher_matrix hessFn pipe (pre ++ bad :: rest)).2.1).hessian
        = (pre.map (fun i => flattenSample (estOf i))).foldl vecAdd
            (List.replicate pipe.model.paramSizes.sum 0) := by
  intro hessFn pipe pre rest bad estOf e hok hbad
  have hrun := runChunks_instr_err hessFn pre (instrumentedPipe pipe)
      (HessianCallback.init pipe.model) bad rest estOf e rfl
      (fun i hi => ⟨(hok i hi).1, (hok i hi).2⟩) hbad
  obtain ⟨p2, hcall1, hnum2, hhess2⟩ :
      ∃ p2, (Pipe.call hessFn (instrumentedPipe pipe) (pre ++ bad :: rest) 1).1
              = .error (e, p2)
          ∧ (Pipe.cbState p2).num_samples = pre.length
          ∧ (Pipe.cbState p2).hessian
              = (pre.map (fun i => flattenSample (estOf i))).foldl vecAdd
                  (List.replicate pipe.model.paramSizes.sum 0) := by
    refine ⟨{ instrumentedPipe pipe with
              fwdSlot := FwdSlot.instrumented
                            ({ HessianCallback.init pipe.model with
                                num_samples :=
                                  (HessianCallback.init pipe.model).num_samples + pre.length,
                                hessian :=
                                  (pre.map (fun i => flattenSample (estOf i))).foldl vecAdd
                                    (HessianCallback.init pipe.model).hessian }) },
            ?_, ?_, ?_⟩
    · show (Pipe.runChunks hessFn (chunks 1 (pre ++ bad :: rest))
          (instrumentedPipe pipe)).1 = _
      rw [chunks_one]
      exact hrun
    · simp [Pipe.cbState, init_num_samples]
    · simp [Pipe.cbState, init_hessian]
  have hfull : fisher_matrix hessFn pipe (pre ++ bad :: rest)
      = (.error e, p2,
         (Pipe.call hessFn (instrumentedPipe pipe) (pre ++ bad :: rest) 1).2) := by
    rw [fisher_matrix_eq]
    rcases hpc : Pipe.call hessFn (instrumentedPipe pipe) (pre ++ bad :: rest) 1
        with ⟨r, ev⟩
    have hr2 : r = .error (e, p2) := by
      have hfst : (Pipe.call hessFn (instrumentedPipe pipe) (pre ++ bad :: rest) 1).1
          = r := by
        rw [hpc]
      rw [← hfst, hcall1]
    subst hr2
    simp [hpc]
  exact ⟨by rw [hfull], by rw [hfull]; exact hnum2, by rw [hfull]; exact hhess2⟩

theorem estimator_error_aborts_run_witness :
    (∀ i ∈ ([[1]] : List Item),
        wHessSel wPipe.model (wPipe.rawForward wPipe.model GradCtx.enableGrad [i]).logits
            = .ok (wEstOf i)
      ∧ (wEstOf i).map (fun t => t.data.length) = wPipe.model.paramSizes)
  ∧ wHessSel wPipe.model (wPipe.rawForward wPipe.model GradCtx.enableGrad [[9]]).logits
        = .error (PyErr.userError 7)
  ∧ ((fisher_matrix wHessSel wPipe ([[1]] ++ [9] :: [])).1 = .error (PyErr.userError 7)
    ∧ (Pipe.cbState (fisher_matrix wHessSel wPipe ([[1]] ++ [9] :: [])).2.1).num_samples
        = ([[1]] : List Item).length
    ∧ (Pipe.cbState (fisher_matrix wHessSel wPipe ([[1]] ++ [9] :: [])).2.1).hessian
        = (([[1]] : List Item).map (fun i => flattenSample (wEstOf i))).foldl vecAdd
            (List.replicate wPipe.model.paramSizes.sum 0)) :=
  ⟨by decide, by decide,
   estimator_error_aborts_run wHessSel wPipe [[1]] [] [9] wEstOf (PyErr.userError 7)
     (by decide) (by decide)⟩

/-- C9: the driver runs the whole dataset through the instrumented pipeline at
batch size 1 — one singleton forward invocation per dataset item, in order, all
items consumed — and, when the run succeeds, returns exactly the accumulator's
normalized result. -/
theorem driver_batch_one_consumes_all_returns_mean :
    ∀ (hessFn : HessFn) (pipe : Pipe) (ds : List Item) (hs : List Val),
    (fisher_matrix hessFn pipe ds).1 = .ok hs →
      (fisher_matrix hessFn pipe ds).2.2 = ds.map (fun i => PipeEvent.fwd [i])
    ∧ (Pipe.cbState (fisher_matrix hessFn pipe ds).2.1).get_hessian = .ok hs := by
  intro hessFn pipe ds hs h
  rw [fisher_matrix_eq] at h ⊢
  rcases hpc : Pipe.call hessFn (instrumentedPipe pipe) ds 1 with ⟨r, ev⟩
  rw [hpc] at h
  cases r with
  | error ep =>
    rcases ep with ⟨e, p2⟩
    simp at h
  | ok pr =>
    rcases pr with ⟨os, p2⟩
    refine ⟨?_, ?_⟩
    · have hev : ev = (chunks 1 ds).map PipeEvent.fwd :=
        runChunks_ok_events hessFn (chunks 1 ds) (instrumentedPipe pipe) os p2 ev
          (by
            show Pipe.runChunks hessFn (chunks 1 ds) (instrumentedPipe pipe)
                = (.ok (os, p2), ev)
            exact hpc)
      show ev = ds.map (fun i => PipeEvent.fwd [i])
      rw [hev, chunks_one, List.map_map]
      rfl
    · exact h

theorem driver_batch_one_witness :
    (fisher_matrix wHessSel wPipe [[4]]).1 = .ok [4]
  ∧ ((fisher_matrix wHessSel wPipe [[4]]).2.2
        = ([[4]] : List Item).map (fun i => PipeEvent.fwd [i])
    ∧ (Pipe.cbState (fisher_matrix wHessSel wPipe [[4]]).2.1).get_hessian = .ok [4]) := by
  have h : (fisher_matrix wHessSel wPipe [[4]]).1 = .ok [4] := by
    simp [fisher_matrix, Pipe.call, chunks, chunksGo, Pipe.runChunks, stepForward,
      add_callback, PyProc.funcAttr, HessianCallback.callFn, HessianCallback.call,
      HessianCallback.add_sample, ArchitectureTensor.to_tensor, HessianCallback.init,
      ArchitectureTensor.ofModel, ArchitectureTensor.zeros, ArchitectureTensor.total,
      vecAdd, HessianCallback.get_hessian, flatDiv, Pipe.cbState, instrumentedPipe,
      wHessSel, wPipe, wRawF, wModel, Tensor.detach]
  exact ⟨h, driver_batch_one_consumes_all_returns_mean wHessSel wPipe [[4]] [4] h⟩

/-- C10: `fisher_matrix` permanently mutates the pipe it is given — afterwards
(whether it returned or raised) the gradient-mode selector always yields
`enable_grad` and `_forward` is still the callback-wrapped version, so any
subsequent successful forward call still invokes the stale accumulation
callback (its sample counter grows by one). -/
theorem fisher_matrix_mutates_pipe_permanently :
    ∀ (hessFn : HessFn) (pipe : Pipe) (ds : List Item),
    (∀ u : List Unit,
        (fisher_matrix hessFn pipe ds).2.1.get_inference_context u = GradCtx.enableGrad)
  ∧ (∃ cb, (fisher_matrix hessFn pipe ds).2.1.fwdSlot = FwdSlot.instrumented cb)
  ∧ (∀ (item : Item) (o : ModelOutput) (p' : Pipe),
      (stepForward hessFn (fisher_matrix hessFn pipe ds).2.1 [item]).1 = .ok (o, p') →
        (Pipe.cbState p').num_samples
          = (Pipe.cbState (fisher_matrix hessFn pipe ds).2.1).num_samples + 1) := by
  intro hessFn pipe ds
  obtain ⟨hctx, hmodel, hraw, cb2, hslot⟩ :=
    runChunks_wiring hessFn (chunks 1 ds) (instrumentedPipe pipe)
      (HessianCallback.init pipe.model) rfl
  have hp2 : (fisher_matrix hessFn pipe ds).2.1
      = resPipe (Pipe.runChunks hessFn (chunks 1 ds) (instrumentedPipe pipe)).1 := by
    rw [fisher_matrix_eq]
    rcases hpc : Pipe.call hessFn (instrumentedPipe pipe) ds 1 with ⟨r, ev⟩
    have hpc' : Pipe.runChunks hessFn (chunks 1 ds) (instrumentedPipe pipe) = (r, ev) :=
      hpc
    rw [hpc']
    cases r with
    | error ep =>
      rcases ep with ⟨e, p2⟩
      simp [resPipe]
    | ok pr =>
      rcases pr with ⟨os, p2⟩
      simp [resPipe]
  rw [hp2]
  refine ⟨?_, ⟨cb2, hslot⟩, ?_⟩
  · intro u
    rw [hctx]
    rfl
  · intro item o p' hstep
    cases hcf : HessianCallback.callFn hessFn
        ((resPipe (Pipe.runChunks hessFn (chunks 1 ds) (instrumentedPipe pipe)).1).rawForward
          (resPipe (Pipe.runChunks hessFn (chunks 1 ds) (instrumentedPipe pipe)).1).model
          ((resPipe (Pipe.runChunks hessFn (chunks 1 ds) (instrumentedPipe pipe)).1).get_inference_context [])
          [item]) cb2 with
    | error ec =>
      rcases ec with ⟨e, cb1⟩
      rw [stepForward_instr_err hessFn _ cb2 [item] e cb1 hslot hcf] at hstep
      simp at hstep
    | ok pr =>
      rcases pr with ⟨o2, cbN⟩
      rw [stepForward_instr_ok hessFn _ cb2 [item] o2 cbN hslot hcf] at hstep
      simp only [Except.ok.injEq, Prod.mk.injEq] at hstep
      obtain ⟨-, hp'⟩ := hstep
      subst hp'
      have hinc := callFn_ok_increments hessFn _ o2 cb2 cbN hcf
      simp [Pipe.cbState, hslot, hinc]

theorem fisher_matrix_mutates_pipe_permanently_witness :
    (stepForward wHessSel (fisher_matrix wHessSel wPipe [[0]]).2.1 [[0]]).1
      = .ok (⟨⟨[0], false⟩, []⟩, wPipeRun2)
  ∧ (Pipe.cbState wPipeRun2).num_samples
      = (Pipe.cbState (fisher_matrix wHessSel wPipe [[0]]).2.1).num_samples + 1 := by
  have h : (stepForward wHessSel (fisher_matrix wHessSel wPipe [[0]]).2.1 [[0]]).1
      = .ok (⟨⟨[0], false⟩, []⟩, wPipeRun2) := by
    simp [fisher_matrix, Pipe.call, chunks, chunksGo, Pipe.runChunks, stepForward,
      add_callback, PyProc.funcAttr, HessianCallback.callFn, HessianCallback.call,
      HessianCallback.add_sample, ArchitectureTensor.to_tensor, HessianCallback.init,
      ArchitectureTensor.ofModel, ArchitectureTensor.zeros, ArchitectureTensor.total,
      vecAdd, Pipe.cbState, instrumentedPipe, wHessSel, wPipe, wRawF, wModel,
      Tensor.detach, wPipeRun2, wPipeRun]
  exact ⟨h, (fisher_matrix_mutates_pipe_permanently wHessSel wPipe [[0]]).2.2
      [0] ⟨⟨[0], false⟩, []⟩ wPipeRun2 h⟩
